import Mathlib

/-!
Shallow embedding of `main.py` of the GitHubAnalyzer repository.

Strings from the Python side are modelled as `List Char`; Python `None` for an
optional value is `Option.none`; a Python function that can raise is modelled
as returning `Except`.  The HTTP collaborator is abstracted away: paginated
endpoints are modelled by the list of pages they would return, in request
order, and a run that walks off the end of that list sees empty pages.
-/

deriving instance DecidableEq for Except

/-- Exceptions raised by Python library calls used in `main.py`
(`datetime.strptime` raises `ValueError` on an impossible calendar date). -/
inductive PyError where
  | valueError
deriving DecidableEq, Repr

/-- The `AnalyseException` class of `main.py`: carries a message text. -/
structure AnalyseException where
  text : String
deriving DecidableEq, Repr

/-- A `datetime.datetime` as produced by `strptime(_, '%Y-%m-%d')`:
the time-of-day part is always zero, so only the calendar date matters. -/
structure Date where
  year : Nat
  month : Nat
  day : Nat
deriving DecidableEq, Repr

/-- Python `datetime` comparison `a < b` (lexicographic on year, month, day;
the time parts of dates built by `strptime('%Y-%m-%d')` are all zero). -/
def dateLt (a b : Date) : Bool :=
  decide (a.year < b.year ∨ (a.year = b.year ∧
    (a.month < b.month ∨ (a.month = b.month ∧ a.day < b.day))))

/-- Gregorian leap-year rule, as implemented by Python's `datetime`. -/
def isLeapYear (y : Nat) : Bool :=
  decide ((y % 4 = 0 ∧ y % 100 ≠ 0) ∨ y % 400 = 0)

/-- Number of days of month `m` of year `y`, as validated by `datetime`. -/
def daysInMonth (y m : Nat) : Nat :=
  if m = 2 then (if isLeapYear y then 29 else 28)
  else if m = 4 ∨ m = 6 ∨ m = 9 ∨ m = 11 then 30
  else 31

/-- A (year, month, day) triple that `datetime(year, month, day)` accepts. -/
def isValidYMD (y m d : Nat) : Bool :=
  decide (1 ≤ y ∧ y ≤ 9999 ∧ 1 ≤ m ∧ m ≤ 12 ∧ 1 ≤ d ∧ d ≤ daysInMonth y m)

/-- ASCII decimal digit test, as in the regex class `\d`. -/
def isDigit (c : Char) : Bool := decide ('0' ≤ c ∧ c ≤ '9')

/-- The regex character class `[1-9]`. -/
def digit1to9 (c : Char) : Bool := isDigit c && c != '0'

/-- Does a window of the input match the date regex of
`get_input_date_by_format`, namely
`(19|20)\d\d-((0[1-9]|1[012])-(0[1-9]|[12]\d)|(0[13-9]|1[012])-30|(0[13578]|1[02])-31)`?
Every alternative of the pattern is exactly ten characters long, so a match at
a position is a property of the ten-character window starting there. -/
def matchesDate : List Char → Bool
  | [y1, y2, y3, y4, s1, m1, m2, s2, d1, d2] =>
    ((y1 == '1' && y2 == '9') || (y1 == '2' && y2 == '0')) &&
    isDigit y3 && isDigit y4 && s1 == '-' && s2 == '-' &&
    ( (((m1 == '0' && digit1to9 m2) || (m1 == '1' && (m2 == '0' || m2 == '1' || m2 == '2'))) &&
        ((d1 == '0' && digit1to9 d2) || ((d1 == '1' || d1 == '2') && isDigit d2)))
      ||
      (((m1 == '0' && (m2 == '1' || decide ('3' ≤ m2 ∧ m2 ≤ '9'))) ||
          (m1 == '1' && (m2 == '0' || m2 == '1' || m2 == '2'))) &&
        (d1 == '3' && d2 == '0'))
      ||
      (((m1 == '0' && (m2 == '1' || m2 == '3' || m2 == '5' || m2 == '7' || m2 == '8')) ||
          (m1 == '1' && (m2 == '0' || m2 == '2'))) &&
        (d1 == '3' && d2 == '1')))
  | _ => false

/-- Leftmost match of the date regex: `re.search` scans the starting positions
from the left and returns `group(0)` of the first position whose ten-character
window matches (the pattern is anchored nowhere and has fixed length ten). -/
def regexSearch : List Char → Option (List Char)
  | [] => none
  | c :: cs =>
    if matchesDate ((c :: cs).take 10) then some ((c :: cs).take 10)
    else regexSearch cs

/-- Numeric value of an ASCII digit character. -/
def digitVal (c : Char) : Nat := c.toNat - '0'.toNat

/-- Python's `datetime.strptime(s, '%Y-%m-%d')` (library collaborator):
demands the `YYYY-MM-DD` digit shape and a real (leap-aware) calendar date, and
raises `ValueError` otherwise.  In `main.py` it is only ever applied to a
ten-character window matched by the date regex, for which this shape check is
exact. -/
def strptimeYMD (w : List Char) : Except PyError Date :=
  match w with
  | [y1, y2, y3, y4, s1, m1, m2, s2, d1, d2] =>
    if s1 == '-' && s2 == '-' && isDigit y1 && isDigit y2 && isDigit y3 && isDigit y4 &&
        isDigit m1 && isDigit m2 && isDigit d1 && isDigit d2 then
      let y := ((digitVal y1 * 10 + digitVal y2) * 10 + digitVal y3) * 10 + digitVal y4
      let m := digitVal m1 * 10 + digitVal m2
      let d := digitVal d1 * 10 + digitVal d2
      if isValidYMD y m d then .ok ⟨y, m, d⟩ else .error .valueError
    else .error .valueError
  | _ => .error .valueError

/-- `GitHubAnalyzer.get_input_date_by_format`: `None` passes through, else the
first regex match of the strict date pattern is handed to `strptime`; no match
gives `None`. -/
def get_input_date_by_format (date : Option (List Char)) : Except PyError (Option Date) :=
  match date with
  | none => .ok none
  | some s =>
    match regexSearch s with
    | none => .ok none
    | some w => (strptimeYMD w).map some

/-- `GitHubAnalyzer.compare_dates`: `True` when the bound `my_date` is absent,
`False` when the bound is present but the candidate `date` is absent, and
`func my_date date` when both are present. -/
def compare_dates (my_date : Option Date) (date : Option Date)
    (func : Date → Date → Bool) : Bool :=
  match my_date with
  | none => true
  | some d1 =>
    match date with
    | none => false
    | some d2 => func d1 d2

/-- Does `pat` occur at the very start of `s` (Python's scan test at one
position of `str.replace`)? -/
def matchesAt : List Char → List Char → Bool
  | [], _ => true
  | _ :: _, [] => false
  | p :: ps, c :: cs => p == c && matchesAt ps cs

/-- One left-to-right pass of Python's `str.replace(pat, '')`: at each
position, if `pat` starts there it is deleted and the scan resumes after it,
otherwise the character is kept.  The fuel argument only serves termination;
`removeAll` supplies enough of it for the pass to finish. -/
def removeAllAux (pat : List Char) : Nat → List Char → List Char
  | 0, s => s
  | _ + 1, [] => []
  | fuel + 1, c :: cs =>
    if matchesAt pat (c :: cs) then
      removeAllAux pat fuel ((c :: cs).drop pat.length)
    else c :: removeAllAux pat fuel cs

/-- Python's `s.replace(pat, '')` for a non-empty `pat`: delete every
non-overlapping occurrence of `pat`, scanning from the left. -/
def removeAll (pat s : List Char) : List Char := removeAllAux pat s.length s

/-- Python's `s.split(sep)` for a one-character separator: the result is
always non-empty and neighbouring separators produce empty segments. -/
def splitOnChar (sep : Char) : List Char → List (List Char)
  | [] => [[]]
  | c :: cs =>
    if c = sep then [] :: splitOnChar sep cs
    else
      match splitOnChar sep cs with
      | [] => [[c]]
      | seg :: rest => (c :: seg) :: rest

/-- The stripping step of `get_params_by_url`:
`url.replace('github.com/', '').replace('https://', '')`. -/
def strippedUrl (url : List Char) : List Char :=
  removeAll "https://".data (removeAll "github.com/".data url)

/-- The error message of `get_params_by_url`. -/
def urlErrorMessage (url : List Char) : String :=
  "При обработке адреса " ++ String.mk url ++
    " произошла ошибка. Невозможно извлечь имя пользователя и название репозитория"

/-- `GitHubAnalyzer.get_params_by_url`: strip the host markers, split on
`'/'`, keep the first two segments, and raise `AnalyseException` unless
exactly two segments were kept. -/
def get_params_by_url (url : List Char) : Except AnalyseException (List (List Char)) :=
  let params := (splitOnChar '/' (strippedUrl url)).take 2
  if params.length ≠ 2 then .error ⟨urlErrorMessage url⟩
  else .ok params

/-- Python's `list(filter(f, l))` for a predicate that may raise: elements are
tested from the left, the kept ones stay in order, and the first exception
aborts the whole call. -/
def filterE {α : Type} (f : α → Except PyError Bool) : List α → Except PyError (List α)
  | [] => .ok []
  | a :: as =>
    match f a with
    | .error e => .error e
    | .ok b =>
      match filterE f as with
      | .error e => .error e
      | .ok rest => .ok (if b then a :: rest else rest)

/-- Left-to-right effectful map over a page list, collecting the per-page
results; the first exception aborts the whole call. -/
def mapE {α β : Type} (f : α → Except PyError β) : List α → Except PyError (List β)
  | [] => .ok []
  | a :: as =>
    match f a with
    | .error e => .error e
    | .ok b =>
      match mapE f as with
      | .error e => .error e
      | .ok rest => .ok (b :: rest)

/-- The fields of one issue object that `get_issues_by_param` reads. -/
structure Issue where
  created_at : Option (List Char)
deriving DecidableEq, Repr

/-- The filter applied by `get_issues_by_param` to each fetched issue:
`compare_dates(self.end, get_input_date_by_format(issue['created_at']),
lambda d1, d2: d1 > d2)`. -/
def issueKeep (endBound : Option Date) (issue : Issue) : Except PyError Bool :=
  match get_input_date_by_format issue.created_at with
  | .error e => .error e
  | .ok d => .ok (compare_dates endBound d (fun d1 d2 => dateLt d2 d1))

/-- `GitHubAnalyzer.get_issues_by_param`: request pages `1, 2, …` of one
`state=…` listing, stop at the first empty page, and accumulate the issues
each non-empty page keeps under `issueKeep`.  The collaborator is modelled by
the list of pages it returns in request order; running past its end behaves
like an empty page. -/
def get_issues_by_param (endBound : Option Date) : List (List Issue) → Except PyError (List Issue)
  | [] => .ok []
  | page :: rest =>
    if page.isEmpty then .ok []
    else
      match filterE (issueKeep endBound) page with
      | .error e => .error e
      | .ok kept =>
        match get_issues_by_param endBound rest with
        | .error e => .error e
        | .ok more => .ok (kept ++ more)

/-- The fields of one pull-request object that `get_pull_requests` reads. -/
structure Pull where
  number : Nat
  created_at : Option (List Char)
  closed_at : Option (List Char)
  state : List Char
  base_ref : List Char
deriving DecidableEq, Repr

/-- The dictionary built by `get_pull_requests` for each kept pull request. -/
structure PullRec where
  number : Nat
  created_at : Option Date
  closed_at : Option Date
  state : List Char
deriving DecidableEq, Repr

/-- The window filter of `get_pull_requests` (and of `get_top_commits`):
`compare_dates(start, d, <) and compare_dates(end, d, >)` on the parsed
`created_at`. -/
def windowKeep (startBound endBound : Option Date) (created : Option (List Char)) :
    Except PyError Bool :=
  match get_input_date_by_format created with
  | .error e => .error e
  | .ok d =>
    .ok (compare_dates startBound d (fun d1 d2 => dateLt d1 d2) &&
         compare_dates endBound d (fun d1 d2 => dateLt d2 d1))

/-- The `continue` condition of the record-building loop of
`get_pull_requests`: `self.branch is not None and pull['base']['ref'] != self.branch`. -/
def branchSkip (branch : Option (List Char)) (pull : Pull) : Bool :=
  match branch with
  | none => false
  | some br => decide (pull.base_ref ≠ br)

/-- The record-building `for` loop of `get_pull_requests` over one filtered
page: skipped pulls are dropped, the rest are re-parsed into `PullRec`s in
order (parsing `closed_at` may raise). -/
def buildRecs (branch : Option (List Char)) : List Pull → Except PyError (List PullRec)
  | [] => .ok []
  | pull :: rest =>
    if branchSkip branch pull then buildRecs branch rest
    else
      match get_input_date_by_format pull.created_at with
      | .error e => .error e
      | .ok created =>
        match get_input_date_by_format pull.closed_at with
        | .error e => .error e
        | .ok closed =>
          match buildRecs branch rest with
          | .error e => .error e
          | .ok tail => .ok (⟨pull.number, created, closed, pull.state⟩ :: tail)

/-- The whole per-page body of the `while` loop of `get_pull_requests`:
window filter, then the record-building loop. -/
def pageRecs (startBound endBound : Option Date) (branch : Option (List Char))
    (page : List Pull) : Except PyError (List PullRec) :=
  match filterE (fun pull => windowKeep startBound endBound pull.created_at) page with
  | .error e => .error e
  | .ok filtered => buildRecs branch filtered

/-- `GitHubAnalyzer.get_pull_requests`: request pages `1, 2, …` of the
`state=all` pull listing, stop at the first empty page, and accumulate each
earlier page's records in page order.  The collaborator is modelled by the
list of pages it returns in request order; running past its end behaves like
an empty page. -/
def get_pull_requests (startBound endBound : Option Date) (branch : Option (List Char)) :
    List (List Pull) → Except PyError (List PullRec)
  | [] => .ok []
  | page :: rest =>
    if page.isEmpty then .ok []
    else
      match pageRecs startBound endBound branch page with
      | .error e => .error e
      | .ok recs =>
        match get_pull_requests startBound endBound branch rest with
        | .error e => .error e
        | .ok more => .ok (recs ++ more)

/-- The fields of one commit object that `get_top_commits` reads. -/
structure Commit where
  committer_date : Option (List Char)
  author_name : List Char
deriving DecidableEq, Repr

/-- One row of the ranking built by `get_top_commits`. -/
structure Tally where
  name : List Char
  count : Nat
deriving DecidableEq, Repr

/-- The sort key relation of `get_top_commits`:
`sorted(..., key=lambda x: -x['count'])` orders by count descending. -/
def tallyGE (a b : Tally) : Prop := b.count ≤ a.count

instance : DecidableRel tallyGE := fun a b => Nat.decLe b.count a.count

instance : IsTotal Tally tallyGE :=
  ⟨fun a b => (Nat.le_total b.count a.count).imp (fun h => h) (fun h => h)⟩

instance : IsTrans Tally tallyGE :=
  ⟨fun _ _ _ hab hbc => Nat.le_trans hbc hab⟩

/-- Iteration order of Python's `set(authors)`, which is unspecified; it is
modelled as first-occurrence order.  The claims proved below do not depend on
this choice. -/
def setOrderAux : Nat → List (List Char) → List (List Char)
  | 0, _ => []
  | _ + 1, [] => []
  | fuel + 1, a :: as => a :: setOrderAux fuel (as.filter (fun b => decide (b ≠ a)))

/-- The distinct author names of `set(authors)`, in first-occurrence order. -/
def setOrder (l : List (List Char)) : List (List Char) := setOrderAux l.length l

/-- `GitHubAnalyzer.get_top_commits`: filter the fetched commits by the
analysis window on the committer date, tally commits per author name, sort
the tallies by count descending (Python's `sorted` is stable, as is
`insertionSort`), and keep the first thirty. -/
def get_top_commits (startBound endBound : Option Date) (commits : List Commit) :
    Except PyError (List Tally) :=
  match filterE (fun item => windowKeep startBound endBound item.committer_date) commits with
  | .error e => .error e
  | .ok filtered =>
    let authors := filtered.map (fun c => c.author_name)
    .ok ((List.insertionSort tallyGE
        ((setOrder authors).map (fun author => ⟨author, authors.count author⟩))).take 30)

/-- `pat` occurs as a contiguous substring of `s`. -/
def occursIn (pat s : List Char) : Prop := ∃ u v, s = u ++ pat ++ v

/-- Total restatement of `get_input_date_by_format` used to phrase theorems:
it agrees with the parser whenever the parser does not raise. -/
def parsedDateOrNone (s : Option (List Char)) : Option Date :=
  match get_input_date_by_format s with
  | .ok d => d
  | .error _ => none

/-- The pure issue filter used to phrase the corrected issue-aggregation
claim: keep an issue exactly when the end bound is absent or the parsed
`created_at` is a date strictly before it. -/
def keepByEnd (endBound : Option Date) (issue : Issue) : Bool :=
  compare_dates endBound (parsedDateOrNone issue.created_at) (fun d1 d2 => dateLt d2 d1)

/-- The fields of an HTTP response that `get_error_or_json` reads: the request
description, the status code, and the decoded JSON body (modelled abstractly
by its rendered text, which is also what the error message interpolates). -/
structure Response where
  request : String
  status_code : Nat
  json : String
deriving DecidableEq, Repr

/-- The message of the exception raised by `get_error_or_json`. -/
def errorMessage (response : Response) : String :=
  "При выполнении запроса " ++ response.request ++ " произошла ошибка.\nКод ответа: " ++
    toString response.status_code ++ "\n\n" ++ response.json

/-- `GitHubAnalyzer.get_error_or_json`: raise `AnalyseException` whenever the
status code differs from 200, otherwise return the decoded body. -/
def get_error_or_json (response : Response) : Except AnalyseException String :=
  if response.status_code ≠ 200 then .error ⟨errorMessage response⟩
  else .ok response.json

/-! ### Lemmas about the `str.replace` model -/

theorem matchesAt_iff (pat s : List Char) :
    matchesAt pat s = true ↔ ∃ t, s = pat ++ t := by
  induction pat generalizing s with
  | nil =>
    constructor
    · intro _; exact ⟨s, rfl⟩
    · intro _; rfl
  | cons p ps ih =>
    cases s with
    | nil =>
      simp only [matchesAt]
      constructor
      · intro h; cases h
      · rintro ⟨t, ht⟩; cases ht
    | cons c cs =>
      simp only [matchesAt, Bool.and_eq_true, beq_iff_eq]
      constructor
      · rintro ⟨rfl, h⟩
        obtain ⟨t, rfl⟩ := (ih cs).1 h
        exact ⟨t, rfl⟩
      · rintro ⟨t, ht⟩
        injection ht with h1 h2
        subst h1
        exact ⟨rfl, (ih cs).2 ⟨t, h2⟩⟩

theorem matchesAt_append_self (l t : List Char) : matchesAt l (l ++ t) = true :=
  (matchesAt_iff l (l ++ t)).2 ⟨t, rfl⟩

theorem removeAllAux_nil (pat : List Char) (f : Nat) : removeAllAux pat f [] = [] := by
  cases f <;> rfl

theorem removeAllAux_fuel (p : Char) (ps : List Char) :
    ∀ (f1 : Nat) (s : List Char) (f2 : Nat), s.length ≤ f1 → s.length ≤ f2 →
      removeAllAux (p :: ps) f1 s = removeAllAux (p :: ps) f2 s := by
  intro f1
  induction f1 with
  | zero =>
    intro s f2 h1 _
    have hs : s = [] := List.length_eq_zero.1 (Nat.le_zero.1 h1)
    subst hs
    rw [removeAllAux_nil, removeAllAux_nil]
  | succ f1 ih =>
    intro s f2 h1 h2
    cases s with
    | nil => rw [removeAllAux_nil, removeAllAux_nil]
    | cons c cs =>
      cases f2 with
      | zero => exact absurd h2 (by simp)
      | succ f2 =>
        cases hm : matchesAt (p :: ps) (c :: cs) with
        | true =>
          simp only [removeAllAux, hm, if_true]
          refine ih _ _ ?_ ?_ <;>
            simp only [List.length_drop, List.length_cons] at * <;> omega
        | false =>
          simp only [removeAllAux, hm, Bool.false_eq_true, if_false, List.cons.injEq, true_and]
          refine ih _ _ ?_ ?_ <;> simp only [List.length_cons] at * <;> omega

theorem removeAll_cons_ne (p c : Char) (ps cs : List Char) (h : (p == c) = false) :
    removeAll (p :: ps) (c :: cs) = c :: removeAll (p :: ps) cs := by
  have hm : matchesAt (p :: ps) (c :: cs) = false := by simp [matchesAt, h]
  simp [removeAll, removeAllAux, hm]

theorem removeAll_skip (p : Char) (ps : List Char) (pre s : List Char)
    (h : ∀ x ∈ pre, (p == x) = false) :
    removeAll (p :: ps) (pre ++ s) = pre ++ removeAll (p :: ps) s := by
  induction pre with
  | nil => simp
  | cons c cs ih =>
    have hc : (p == c) = false := h c (List.mem_cons_self c cs)
    simp only [List.cons_append]
    rw [removeAll_cons_ne p c ps (cs ++ s) hc,
      ih (fun x hx => h x (List.mem_cons_of_mem _ hx))]

theorem removeAll_match (p : Char) (ps rest : List Char) :
    removeAll (p :: ps) ((p :: ps) ++ rest) = removeAll (p :: ps) rest := by
  have hm : matchesAt (p :: ps) (p :: (ps ++ rest)) = true := by
    simpa using matchesAt_append_self (p :: ps) rest
  have hdrop : (p :: (ps ++ rest)).drop (ps.length + 1) = rest := by
    rw [List.drop_succ_cons]; exact List.drop_left ps rest
  show removeAllAux (p :: ps) ((p :: ps) ++ rest).length ((p :: ps) ++ rest) = _
  simp only [List.cons_append, List.length_cons, removeAllAux, List.append_eq]
  rw [if_pos hm, hdrop]
  exact removeAllAux_fuel p ps ((ps ++ rest).length) rest rest.length
    (by rw [List.length_append]; exact Nat.le_add_left _ _) (Nat.le_refl _)

theorem removeAll_no_occ (p : Char) (ps : List Char) :
    ∀ s : List Char, ¬ occursIn (p :: ps) s → removeAll (p :: ps) s = s := by
  intro s
  induction s with
  | nil => intro _; rfl
  | cons c cs ih =>
    intro h
    have hm : matchesAt (p :: ps) (c :: cs) = false := by
      cases hmt : matchesAt (p :: ps) (c :: cs) with
      | false => rfl
      | true =>
        obtain ⟨t, ht⟩ := (matchesAt_iff _ _).1 hmt
        exact absurd ⟨[], t, by simpa using ht⟩ h
    have hstep : removeAll (p :: ps) (c :: cs) = c :: removeAll (p :: ps) cs := by
      simp [removeAll, removeAllAux, hm]
    rw [hstep, ih (fun hocc => h (by obtain ⟨u, v, huv⟩ := hocc; exact ⟨c :: u, v, by simp [huv]⟩))]

theorem occursIn_count (pat s : List Char) (a : Char) (h : occursIn pat s) :
    List.count a pat ≤ List.count a s := by
  obtain ⟨u, v, rfl⟩ := h
  simp only [List.count_append]
  omega

theorem split_at_unique_sep (sep : Char) :
    ∀ a c b d : List Char, sep ∉ a → sep ∉ c →
      a ++ sep :: b = c ++ sep :: d → a = c ∧ b = d := by
  intro a
  induction a with
  | nil =>
    intro c b d _ hc h
    cases c with
    | nil =>
      refine ⟨rfl, ?_⟩
      simpa using h
    | cons x xs =>
      simp only [List.nil_append, List.cons_append, List.cons.injEq] at h
      exact absurd (by rw [h.1]; exact List.mem_cons_self x xs) hc
  | cons y ys ih =>
    intro c b d ha hc h
    cases c with
    | nil =>
      simp only [List.cons_append, List.nil_append, List.cons.injEq] at h
      exact absurd (by rw [← h.1]; exact List.mem_cons_self y ys) ha
    | cons x xs =>
      simp only [List.cons_append, List.cons.injEq] at h
      obtain ⟨h1, h2⟩ := h
      obtain ⟨hac, hbd⟩ := ih xs b d (fun hm => ha (List.mem_cons_of_mem _ hm))
        (fun hm => hc (List.mem_cons_of_mem _ hm)) h2
      exact ⟨by rw [h1, hac], hbd⟩

theorem no_https_marker (owner name : List Char)
    (h1 : '/' ∉ owner) (h2 : '/' ∉ name) :
    ¬ occursIn "https://".data (owner ++ '/' :: name) := by
  intro h
  have hc := occursIn_count "https://".data (owner ++ '/' :: name) '/' h
  have hcp : List.count '/' "https://".data = 2 := by decide
  rw [hcp] at hc
  simp only [List.count_append, List.count_cons, beq_self_eq_true, if_true,
    List.count_eq_zero.2 h1, List.count_eq_zero.2 h2] at hc
  omega

theorem no_github_marker (owner name : List Char)
    (h1 : '/' ∉ owner) (h2 : '/' ∉ name)
    (h3 : ¬ "github.com".data <:+ owner) :
    ¬ occursIn "github.com/".data (owner ++ '/' :: name) := by
  rintro ⟨u, v, huv⟩
  have hgh : "github.com/".data = "github.com".data ++ ['/'] := rfl
  rw [hgh] at huv
  have hsplit : owner ++ '/' :: name = (u ++ "github.com".data) ++ '/' :: v := by
    rw [huv]; simp
  have hzero : List.count '/' u = 0 ∧ List.count '/' v = 0 := by
    have hcongr := congrArg (List.count '/') hsplit
    have hcg : List.count '/' "github.com".data = 0 := by decide
    simp only [List.count_append, List.count_cons, beq_self_eq_true, if_true,
      List.count_eq_zero.2 h1, List.count_eq_zero.2 h2, hcg] at hcongr
    omega
  have hmem : '/' ∉ u ++ "github.com".data := by
    intro hm
    rcases List.mem_append.1 hm with hm | hm
    · exact absurd hm (List.count_eq_zero.1 hzero.1)
    · exact absurd hm (by decide)
  obtain ⟨heq, _⟩ := split_at_unique_sep '/' owner (u ++ "github.com".data) name v h1 hmem hsplit
  exact h3 ⟨u, heq.symm⟩

/-! ### Lemmas about the `str.split` model -/

theorem splitOnChar_ne_nil (sep : Char) (l : List Char) : splitOnChar sep l ≠ [] := by
  cases l with
  | nil => simp [splitOnChar]
  | cons c cs =>
    by_cases h : c = sep
    · simp [splitOnChar, h]
    · simp only [splitOnChar, if_neg h]
      cases splitOnChar sep cs <;> simp

theorem splitOnChar_no_sep (sep : Char) :
    ∀ l : List Char, sep ∉ l → splitOnChar sep l = [l] := by
  intro l
  induction l with
  | nil => intro _; rfl
  | cons c cs ih =>
    intro h
    have hc : ¬ c = sep := fun e => h (by rw [e]; exact List.mem_cons_self _ _)
    simp only [splitOnChar, if_neg hc, ih (fun hm => h (List.mem_cons_of_mem _ hm))]

theorem splitOnChar_append (sep : Char) (b : List Char) :
    ∀ a : List Char, sep ∉ a → splitOnChar sep (a ++ sep :: b) = a :: splitOnChar sep b := by
  intro a
  induction a with
  | nil => intro _; simp [splitOnChar]
  | cons c cs ih =>
    intro ha
    have hc : ¬ c = sep := fun e => ha (by rw [e]; exact List.mem_cons_self _ _)
    simp only [List.cons_append, splitOnChar, if_neg hc, List.append_eq,
      ih (fun hm => ha (List.mem_cons_of_mem _ hm))]

theorem two_le_splitOnChar_iff (sep : Char) :
    ∀ l : List Char, 2 ≤ (splitOnChar sep l).length ↔ sep ∈ l := by
  intro l
  induction l with
  | nil => simp [splitOnChar]
  | cons c cs ih =>
    by_cases h : c = sep
    · subst h
      have hstep : splitOnChar c (c :: cs) = [] :: splitOnChar c cs := by
        simp [splitOnChar]
      rw [hstep, List.length_cons]
      constructor
      · intro _; exact List.mem_cons_self _ _
      · intro _
        have hpos : 0 < (splitOnChar c cs).length :=
          List.length_pos.2 (splitOnChar_ne_nil c cs)
        omega
    · obtain ⟨seg, rest, hsr⟩ : ∃ seg rest, splitOnChar sep cs = seg :: rest := by
        cases hs : splitOnChar sep cs with
        | nil => exact absurd hs (splitOnChar_ne_nil sep cs)
        | cons s r => exact ⟨s, r, rfl⟩
      rw [hsr] at ih
      simp only [splitOnChar, if_neg h, hsr, List.length_cons] at ih ⊢
      rw [ih, List.mem_cons]
      exact ⟨fun hm => Or.inr hm, fun hm => hm.resolve_left (fun e => h e.symm)⟩

/-! ### Lemmas about the date-regex search -/

theorem matchesDate_length : ∀ w : List Char, matchesDate w = true → w.length = 10
  | [_, _, _, _, _, _, _, _, _, _], _ => rfl
  | [], h => absurd h (by simp [matchesDate])
  | [_], h => absurd h (by simp [matchesDate])
  | [_, _], h => absurd h (by simp [matchesDate])
  | [_, _, _], h => absurd h (by simp [matchesDate])
  | [_, _, _, _], h => absurd h (by simp [matchesDate])
  | [_, _, _, _, _], h => absurd h (by simp [matchesDate])
  | [_, _, _, _, _, _], h => absurd h (by simp [matchesDate])
  | [_, _, _, _, _, _, _], h => absurd h (by simp [matchesDate])
  | [_, _, _, _, _, _, _, _], h => absurd h (by simp [matchesDate])
  | [_, _, _, _, _, _, _, _, _], h => absurd h (by simp [matchesDate])
  | _ :: _ :: _ :: _ :: _ :: _ :: _ :: _ :: _ :: _ :: _ :: _, h =>
    absurd h (by simp [matchesDate])

theorem regexSearch_first :
    ∀ (k : Nat) (s : List Char),
      (∀ i, i < k → matchesDate ((s.drop i).take 10) = false) →
      matchesDate ((s.drop k).take 10) = true →
      regexSearch s = some ((s.drop k).take 10) := by
  intro k
  induction k with
  | zero =>
    intro s _ hk
    cases s with
    | nil => exact absurd hk (by simp [matchesDate])
    | cons c cs =>
      rw [List.drop_zero] at hk ⊢
      unfold regexSearch
      rw [if_pos hk]
  | succ k ih =>
    intro s hbefore hk
    cases s with
    | nil => exact absurd hk (by simp [matchesDate])
    | cons c cs =>
      have h0 : matchesDate ((c :: cs).take 10) = false := by
        simpa using hbefore 0 (Nat.succ_pos k)
      rw [List.drop_succ_cons] at hk ⊢
      have hrec := ih cs
        (fun i hi => by
          have := hbefore (i + 1) (Nat.succ_lt_succ hi)
          simpa [List.drop_succ_cons] using this)
        hk
      unfold regexSearch
      rw [if_neg (by rw [h0]; exact Bool.false_ne_true), hrec]

/-! ### Lemmas about the effectful filter -/

theorem filterE_ok {α : Type} (f : α → Except PyError Bool) (g : α → Bool) :
    ∀ l : List α, (∀ x ∈ l, f x = .ok (g x)) → filterE f l = .ok (l.filter g) := by
  intro l
  induction l with
  | nil => intro _; rfl
  | cons a as ih =>
    intro h
    have ha := h a (List.mem_cons_self a as)
    have has := ih (fun x hx => h x (List.mem_cons_of_mem _ hx))
    simp only [filterE, ha, has, List.filter_cons]

theorem issueKeep_ok (endBound : Option Date) (i : Issue)
    (h : (get_input_date_by_format i.created_at).isOk = true) :
    issueKeep endBound i = .ok (keepByEnd endBound i) := by
  cases hg : get_input_date_by_format i.created_at with
  | error err =>
    rw [hg] at h
    exact absurd h (by simp [Except.isOk, Except.toBool])
  | ok d =>
    simp [issueKeep, keepByEnd, parsedDateOrNone, hg]

theorem take_two_cons_cons {α : Type} (a b : α) (r : List α) :
    (a :: b :: r).take 2 = [a, b] := rfl

theorem get_params_by_url_ok (url s0 s1 : List Char) (r : List (List Char))
    (h : splitOnChar '/' (strippedUrl url) = s0 :: s1 :: r) :
    get_params_by_url url = .ok [s0, s1] := by
  simp [get_params_by_url, h, take_two_cons_cons]

theorem get_params_by_url_error (url : List Char) (h : '/' ∉ strippedUrl url) :
    get_params_by_url url = .error ⟨urlErrorMessage url⟩ := by
  have hs := splitOnChar_no_sep '/' (strippedUrl url) h
  simp [get_params_by_url, hs]

/-! ### The claims -/

/-- C1: the spec promises that malformed dates — including a date whose day is
invalid for its month — parse to `None` and never raise; the code instead
raises `ValueError` out of `strptime` on `"2021-02-29"`, because the regex
admits February 29 of every year while 2021 is not a leap year.  This theorem
evaluates the code at the failing input. -/
theorem C1_bug_eval :
    get_input_date_by_format (some "2021-02-29".data) = .error .valueError := by decide

/-- C2 counterexample: under end bound 2020-01-01, the single non-empty page
holding one issue created 2020-10-10 contributes nothing to the result — the
code does re-filter the fetched issues client-side against the end bound,
contrary to the claim that every issue of every non-empty page is counted. -/
theorem C2_counterexample :
    get_issues_by_param (some ⟨2020, 1, 1⟩) [[⟨some "2020-10-10".data⟩]] = .ok [] := by
  decide

/-- C2 (amended): `get_issues_by_param` accumulates exactly the issues of the
pages before the first empty page whose parsed `created_at` satisfies the end
bound under `compare_dates` — an issue is kept iff the end bound is absent or
its `created_at` parses to a date strictly before the bound (provided no page
of the sequence makes date parsing raise). -/
theorem C2_amended_stmt (endBound : Option Date) (pages : List (List Issue))
    (hp : ∀ p ∈ pages, ∀ i ∈ p, (get_input_date_by_format i.created_at).isOk = true) :
    get_issues_by_param endBound pages =
      .ok (((pages.takeWhile (fun p => !p.isEmpty)).flatten).filter (keepByEnd endBound)) := by
  induction pages with
  | nil => rfl
  | cons p rest ih =>
    cases p with
    | nil => rfl
    | cons x xs =>
      have hfil : filterE (issueKeep endBound) (x :: xs) =
          .ok ((x :: xs).filter (keepByEnd endBound)) :=
        filterE_ok _ _ _
          (fun i hi => issueKeep_ok endBound i (hp (x :: xs) (List.mem_cons_self _ _) i hi))
      have hrec := ih (fun p hpm i hi => hp p (List.mem_cons_of_mem _ hpm) i hi)
      simp only [get_issues_by_param, List.isEmpty_cons, Bool.false_eq_true, if_false,
        hfil, hrec, List.takeWhile_cons, Bool.not_false, if_true,
        List.flatten_cons, List.filter_append]

/-- Witness for C2 (amended) at a concrete window and page sequence. -/
theorem C2_witness :
    get_issues_by_param (some ⟨2021, 1, 1⟩)
        [[⟨some "2020-10-10".data⟩], [⟨some "2022-05-05".data⟩]] =
      .ok (((([[⟨some "2020-10-10".data⟩], [⟨some "2022-05-05".data⟩]] :
            List (List Issue)).takeWhile (fun p => !p.isEmpty)).flatten).filter
          (keepByEnd (some ⟨2021, 1, 1⟩))) :=
  C2_amended_stmt (some ⟨2021, 1, 1⟩) _ (by decide)

/-- C3 counterexample: status 201 lies in the 2xx range, yet `get_error_or_json`
raises — the code tests `status_code != 200`, not membership of 2xx. -/
theorem C3_counterexample :
    (200 ≤ 201 ∧ 201 < 300) ∧
      get_error_or_json ⟨"GET /pulls", 201, "[]"⟩ =
        .error ⟨errorMessage ⟨"GET /pulls", 201, "[]"⟩⟩ :=
  ⟨⟨by norm_num, by norm_num⟩, rfl⟩

/-- C3 (amended): `get_error_or_json` raises exactly on status codes other
than 200 (rather than "outside 2xx"), the raised message interpolating the
request, the status code and the raw body; a 200 response returns its decoded
body without raising. -/
theorem C3_amended_stmt (response : Response) :
    (response.status_code = 200 → get_error_or_json response = .ok response.json) ∧
    (response.status_code ≠ 200 →
      get_error_or_json response = .error ⟨errorMessage response⟩) := by
  constructor
  · intro h; simp [get_error_or_json, h]
  · intro h; simp [get_error_or_json, h]

/-- Witness for C3 (amended) at status 404. -/
theorem C3_witness :
    get_error_or_json ⟨"GET /commits", 404, "not found"⟩ =
      .error ⟨errorMessage ⟨"GET /commits", 404, "not found"⟩⟩ :=
  (C3_amended_stmt ⟨"GET /commits", 404, "not found"⟩).2 (by norm_num)

/-- C4: `compare_dates` is true whenever the bound is absent (for any
candidate, including an absent one), false when the bound is present and the
candidate absent, and the comparator applied to bound and candidate when both
are present. -/
theorem C4_theorem (candidate : Option Date) (f : Date → Date → Bool) (b c : Date) :
    compare_dates none candidate f = true ∧
    compare_dates (some b) none f = false ∧
    compare_dates (some b) (some c) f = f b c :=
  ⟨rfl, rfl, rfl⟩

/-- C10: a `None` input to `get_input_date_by_format` is explicitly handled:
it flows through as `None` and nothing is raised. -/
theorem C10_theorem : get_input_date_by_format none = .ok none := rfl

/-- C5 counterexample: on `"a//b"` the code keeps `['a', '']` — an empty
second segment — so resolution does not take "the first two non-empty
segments" and does not fail when fewer than two non-empty segments exist. -/
theorem C5_counterexample :
    get_params_by_url "a//b".data = .ok [['a'], []] ∧
      ([['a'], []] : List (List Char)) ≠ [['a'], ['b']] := by
  constructor
  · decide
  · decide

/-- C5 (amended): `get_params_by_url` removes every occurrence of
`"github.com/"` and then of `"https://"` anywhere in the input (not only as
leading prefixes), splits the stripped string on `'/'`, and keeps its first
two segments, which may be empty; it fails with `AnalyseException` exactly
when the stripped string contains no `'/'` at all, i.e. when splitting yields
fewer than two segments. -/
theorem C5_amended_stmt (url : List Char) :
    ((∃ e, get_params_by_url url = .error e) ↔ '/' ∉ strippedUrl url) ∧
    (∀ s0 s1 r, splitOnChar '/' (strippedUrl url) = s0 :: s1 :: r →
      get_params_by_url url = .ok [s0, s1]) := by
  constructor
  · constructor
    · rintro ⟨e, he⟩ hmem
      have h2 := (two_le_splitOnChar_iff '/' (strippedUrl url)).2 hmem
      obtain ⟨s0, s1, r, hsplit⟩ :
          ∃ s0 s1 r, splitOnChar '/' (strippedUrl url) = s0 :: s1 :: r := by
        cases hs : splitOnChar '/' (strippedUrl url) with
        | nil => exact absurd hs (splitOnChar_ne_nil _ _)
        | cons a t =>
          cases t with
          | nil => rw [hs] at h2; simp at h2
          | cons b u => exact ⟨a, b, u, rfl⟩
      rw [get_params_by_url_ok url s0 s1 r hsplit] at he
      cases he
    · intro hmem
      exact ⟨⟨urlErrorMessage url⟩, get_params_by_url_error url hmem⟩
  · intro s0 s1 r hsplit
    exact get_params_by_url_ok url s0 s1 r hsplit

/-- Witness for C5 (amended): the bare form `"aiogram/aiogram"` resolves to
the pair of its two segments. -/
theorem C5_witness :
    get_params_by_url "aiogram/aiogram".data = .ok ["aiogram".data, "aiogram".data] :=
  (C5_amended_stmt "aiogram/aiogram".data).2 "aiogram".data "aiogram".data [] (by decide)

/-- C6 counterexample: for the owner/name pair `("github.com", "x")` the bare
`"owner/name"` form does not resolve to that pair — stripping removes the
marker `"github.com/"` wherever it occurs, devouring the owner and its
slash — so the three-forms claim fails for this pair. -/
theorem C6_counterexample :
    get_params_by_url ("github.com".data ++ '/' :: "x".data) ≠
      .ok ["github.com".data, "x".data] := by decide

/-- C6 (amended): for every owner and name containing no `'/'`, where the
owner moreover does not end in `"github.com"`, all three input forms — full
URL, bare host path, and bare `owner/name` — resolve to the identical
`[owner, name]` pair. -/
theorem C6_amended_stmt (owner name : List Char)
    (h1 : '/' ∉ owner) (h2 : '/' ∉ name)
    (h3 : ¬ "github.com".data <:+ owner) :
    get_params_by_url ("https://github.com/".data ++ (owner ++ '/' :: name)) =
        .ok [owner, name] ∧
    get_params_by_url ("github.com/".data ++ (owner ++ '/' :: name)) = .ok [owner, name] ∧
    get_params_by_url (owner ++ '/' :: name) = .ok [owner, name] := by
  have hgh : "github.com/".data = 'g' :: "ithub.com/".data := rfl
  have hhttps : "https://".data = 'h' :: "ttps://".data := rfl
  have hnogh : ¬ occursIn "github.com/".data (owner ++ '/' :: name) :=
    no_github_marker owner name h1 h2 h3
  have hnoht : ¬ occursIn "https://".data (owner ++ '/' :: name) :=
    no_https_marker owner name h1 h2
  have hsplit : splitOnChar '/' (owner ++ '/' :: name) = [owner, name] := by
    rw [splitOnChar_append '/' name owner h1, splitOnChar_no_sep '/' name h2]
  have estep : removeAll "https://".data (owner ++ '/' :: name) = owner ++ '/' :: name := by
    rw [hhttps]
    exact removeAll_no_occ 'h' _ _ (by rw [← hhttps]; exact hnoht)
  have e3 : strippedUrl (owner ++ '/' :: name) = owner ++ '/' :: name := by
    unfold strippedUrl
    rw [hgh, removeAll_no_occ 'g' _ _ (by rw [← hgh]; exact hnogh), estep]
  have egh : removeAll "github.com/".data ("github.com/".data ++ (owner ++ '/' :: name)) =
      owner ++ '/' :: name := by
    rw [hgh, removeAll_match 'g' "ithub.com/".data (owner ++ '/' :: name)]
    exact removeAll_no_occ 'g' _ _ (by rw [← hgh]; exact hnogh)
  have e2 : strippedUrl ("github.com/".data ++ (owner ++ '/' :: name)) =
      owner ++ '/' :: name := by
    unfold strippedUrl
    rw [egh, estep]
  have e1 : strippedUrl ("https://github.com/".data ++ (owner ++ '/' :: name)) =
      owner ++ '/' :: name := by
    unfold strippedUrl
    have hlit : "https://github.com/".data = "https://".data ++ "github.com/".data := rfl
    rw [hlit, List.append_assoc, hgh]
    rw [removeAll_skip 'g' "ithub.com/".data "https://".data _ (by decide)]
    rw [← hgh, egh, hhttps]
    rw [removeAll_match 'h' "ttps://".data (owner ++ '/' :: name)]
    exact removeAll_no_occ 'h' _ _ (by rw [← hhttps]; exact hnoht)
  refine ⟨?_, ?_, ?_⟩
  · exact get_params_by_url_ok _ owner name [] (by rw [e1, hsplit])
  · exact get_params_by_url_ok _ owner name [] (by rw [e2, hsplit])
  · exact get_params_by_url_ok _ owner name [] (by rw [e3, hsplit])

/-- Witness for C6 (amended) at the owner/name pair `("aiogram", "aiogram")`. -/
theorem C6_witness :
    get_params_by_url ("https://github.com/".data ++ ("aiogram".data ++ '/' :: "aiogram".data)) =
        .ok ["aiogram".data, "aiogram".data] ∧
    get_params_by_url ("github.com/".data ++ ("aiogram".data ++ '/' :: "aiogram".data)) =
        .ok ["aiogram".data, "aiogram".data] ∧
    get_params_by_url ("aiogram".data ++ '/' :: "aiogram".data) =
        .ok ["aiogram".data, "aiogram".data] :=
  C6_amended_stmt "aiogram".data "aiogram".data (by decide) (by decide) (by decide)

/-- C7: whenever `get_top_commits` returns a ranking, it holds at most 30
entries and its entries are ordered by count in descending order. -/
theorem C7_theorem (startBound endBound : Option Date) (commits : List Commit)
    (r : List Tally) (h : get_top_commits startBound endBound commits = .ok r) :
    r.length ≤ 30 ∧ r.Pairwise (fun a b => b.count ≤ a.count) := by
  cases hf : filterE (fun item => windowKeep startBound endBound item.committer_date) commits with
  | error e =>
    have he : get_top_commits startBound endBound commits = .error e := by
      unfold get_top_commits
      rw [hf]
    rw [he] at h
    exact Except.noConfusion h
  | ok filtered =>
    have hok : get_top_commits startBound endBound commits =
        .ok ((List.insertionSort tallyGE
          ((setOrder (filtered.map (fun c => c.author_name))).map
            (fun author => ⟨author, (filtered.map (fun c => c.author_name)).count author⟩))).take
          30) := by
      unfold get_top_commits
      rw [hf]
    rw [hok] at h
    injection h with h
    subst h
    constructor
    · exact List.length_take_le 30 _
    · have hsorted := List.sorted_insertionSort tallyGE
        ((setOrder (filtered.map (fun c => c.author_name))).map
          (fun author => ⟨author, (filtered.map (fun c => c.author_name)).count author⟩))
      have hp := List.Pairwise.sublist (List.take_sublist 30 _) hsorted
      exact hp.imp (fun hab => hab)

/-- Witness for C7 at a concrete commit list inside an open window. -/
theorem C7_witness :
    ([(⟨"b".data, 2⟩ : Tally), ⟨"a".data, 1⟩] : List Tally).length ≤ 30 ∧
      ([(⟨"b".data, 2⟩ : Tally), ⟨"a".data, 1⟩] : List Tally).Pairwise
        (fun a b => b.count ≤ a.count) :=
  C7_theorem none none
    [⟨some "2020-10-10".data, "a".data⟩, ⟨some "2020-10-10".data, "b".data⟩,
     ⟨some "2020-10-10".data, "b".data⟩]
    [⟨"b".data, 2⟩, ⟨"a".data, 1⟩] (by decide)

/-- C8: pull-request pagination terminates at the first empty page — whatever
the collaborator would return afterwards cannot influence the result — and
the result accumulates each earlier page's matching records page by page, in
page order, with the per-page record order preserved (the concatenation of
the per-page record lists). -/
theorem C8_theorem (startBound endBound : Option Date) (branch : Option (List Char))
    (pre rest : List (List Pull)) (h : ∀ p ∈ pre, p ≠ []) :
    get_pull_requests startBound endBound branch (pre ++ [] :: rest) =
        get_pull_requests startBound endBound branch pre ∧
    get_pull_requests startBound endBound branch pre =
      (mapE (pageRecs startBound endBound branch) pre).map List.flatten := by
  induction pre with
  | nil => exact ⟨rfl, rfl⟩
  | cons p pre' ih =>
    have hp : p ≠ [] := h p (List.mem_cons_self _ _)
    obtain ⟨ih1, ih2⟩ := ih (fun q hq => h q (List.mem_cons_of_mem _ hq))
    obtain ⟨y, ys, rfl⟩ : ∃ y ys, p = y :: ys := by
      cases p with
      | nil => exact absurd rfl hp
      | cons y ys => exact ⟨y, ys, rfl⟩
    have hstep : ∀ X, get_pull_requests startBound endBound branch ((y :: ys) :: X) =
        match pageRecs startBound endBound branch (y :: ys) with
        | .error e => .error e
        | .ok recs =>
          match get_pull_requests startBound endBound branch X with
          | .error e => .error e
          | .ok more => .ok (recs ++ more) := fun X => rfl
    cases hpr : pageRecs startBound endBound branch (y :: ys) with
    | error e =>
      constructor
      · rw [List.cons_append, hstep (pre' ++ [] :: rest), hstep pre', hpr]
      · rw [hstep pre', hpr]
        simp only [mapE, hpr, Except.map]
    | ok recs =>
      constructor
      · rw [List.cons_append, hstep (pre' ++ [] :: rest), hstep pre', hpr, ih1]
      · rw [hstep pre', hpr]
        cases hm : mapE (pageRecs startBound endBound branch) pre' with
        | error e =>
          rw [hm] at ih2
          simp only [Except.map] at ih2
          rw [ih2]
          simp only [mapE, hpr, hm, Except.map]
        | ok pages =>
          rw [hm] at ih2
          simp only [Except.map] at ih2
          rw [ih2]
          simp only [mapE, hpr, hm, Except.map, List.flatten_cons]

/-- Witness for C8 at a concrete page sequence with an empty second page. -/
theorem C8_witness :
    get_pull_requests none none (some "master".data)
        ([[⟨1, some "2020-10-10".data, none, "open".data, "master".data⟩]] ++
          [] :: [[⟨2, some "2020-11-11".data, none, "open".data, "master".data⟩]]) =
        get_pull_requests none none (some "master".data)
          [[⟨1, some "2020-10-10".data, none, "open".data, "master".data⟩]] ∧
    get_pull_requests none none (some "master".data)
        [[⟨1, some "2020-10-10".data, none, "open".data, "master".data⟩]] =
      (mapE (pageRecs none none (some "master".data))
          [[⟨1, some "2020-10-10".data, none, "open".data, "master".data⟩]]).map
        List.flatten :=
  C8_theorem none none (some "master".data)
    [[⟨1, some "2020-10-10".data, none, "open".data, "master".data⟩]]
    [[⟨2, some "2020-11-11".data, none, "open".data, "master".data⟩]] (by decide)

/-- C9 counterexample: `"1900-02-29"` matches the strict date pattern (the
day-30/31 rules allow day 29 in every month), yet parsing does not extract
that date — 1900 is not a leap year, so `strptime` raises instead. -/
theorem C9_counterexample :
    matchesDate "1900-02-29".data = true ∧
      get_input_date_by_format (some "1900-02-29".data) ≠ .ok (some ⟨1900, 2, 29⟩) := by
  constructor
  · decide
  · decide

/-- C9 (amended): for every string whose first (leftmost) window matching the
strict date pattern is also a real calendar date — so that `strptime` accepts
it — parsing extracts exactly that date.  The window `w` is the first match:
no window starting inside the prefix `pre` matches the pattern. -/
theorem C9_amended_stmt (pre w post : List Char) (d : Date)
    (hfirst : ∀ i, i < pre.length →
      matchesDate (((pre ++ (w ++ post)).drop i).take 10) = false)
    (hmatch : matchesDate w = true)
    (hparse : strptimeYMD w = .ok d) :
    get_input_date_by_format (some (pre ++ (w ++ post))) = .ok (some d) := by
  have hlen : w.length = 10 := matchesDate_length w hmatch
  have hdrop : (pre ++ (w ++ post)).drop pre.length = w ++ post := List.drop_left pre (w ++ post)
  have htake : (w ++ post).take 10 = w := by
    rw [← hlen]; exact List.take_left w post
  have hsearch : regexSearch (pre ++ (w ++ post)) =
      some (((pre ++ (w ++ post)).drop pre.length).take 10) :=
    regexSearch_first pre.length (pre ++ (w ++ post)) hfirst
      (by rw [hdrop, htake]; exact hmatch)
  rw [hdrop, htake] at hsearch
  show (match regexSearch (pre ++ (w ++ post)) with
    | none => (.ok none : Except PyError (Option Date))
    | some w' => (strptimeYMD w').map some) = .ok (some d)
  rw [hsearch]
  show (strptimeYMD w).map some = .ok (some d)
  rw [hparse]
  rfl

/-- Witness for C9 (amended): the date `2020-10-10` embedded after a prefix
is extracted exactly. -/
theorem C9_witness :
    get_input_date_by_format (some ("at ".data ++ ("2020-10-10".data ++ "T10:00Z".data))) =
      .ok (some ⟨2020, 10, 10⟩) :=
  C9_amended_stmt "at ".data "2020-10-10".data "T10:00Z".data ⟨2020, 10, 10⟩
    (by decide) (by decide) (by decide)
